import Mathlib

/-!
Verification of pyGSTi core routines: the fiducial-pair-reduction amplification
tester and search engine (`packages/pygsti/algorithms/fiducialpairreduction.py`)
and the `DataSet` structure with its gate-string compression helpers
(`packages/pygsti/objects/dataset.py`).

Python floats are embedded as exact rationals (ℚ); numpy's `linalg.svd` is an
external library routine and is embedded as an oracle parameter
`svd : Mat → Option (List ℚ)` returning the list of singular values, `none`
standing for the `LinAlgError` raised when the decomposition does not converge.
Fallible Python code (raised exceptions, failed `assert`s) is embedded as
`Except String` / `Option` results.
-/

namespace PyGSTi

/-- Python `sorted(s, reverse=True)`: the list sorted into descending order. -/
def sortDesc (l : List ℚ) : List ℚ :=
  List.insertionSort (fun a b => b ≤ a) l

/-- The counting loop of `get_number_amplified`
(fiducialpairreduction.py lines 59-68): iterate over
`zip(sorted(s0,reverse=True), sorted(s1,reverse=True))` and increment the
counter whenever `abs(v0) > 0.1 and (v1/v0)/L_ratio > tol`.  (`verb`-guarded
prints are side-effect-free and omitted.) -/
def ampLoop (Lratio tol : ℚ) : List (ℚ × ℚ) → Nat → Nat
  | [], acc => acc
  | (v0, v1) :: rest, acc =>
    if |v0| > 1/10 ∧ (v1 / v0) / Lratio > tol then
      ampLoop Lratio tol rest (acc + 1)
    else
      ampLoop Lratio tol rest acc

/-- `get_number_amplified(M0, M1, L0, L1, verb)` from
fiducialpairreduction.py lines 50-68.  The enclosing closure's `tol` is made
an explicit argument.  `L_ratio = float(L1)/float(L0)`; the two `svd` calls
sit in a `try`/`except` that returns 0 when either decomposition fails. -/
def get_number_amplified {Mat : Type} (svd : Mat → Option (List ℚ))
    (M0 M1 : Mat) (L0 L1 tol : ℚ) : Nat :=
  let Lratio := L1 / L0
  match svd M0, svd M1 with
  | some s0, some s1 => ampLoop Lratio tol ((sortDesc s0).zip (sortDesc s1)) 0
  | _, _ => 0

/-- The per-position amplification predicate of the spec: `|v0| > 0.1` and
`(v1/v0)/(L1/L0) > tolerance`. -/
def ampPred (Lratio tol : ℚ) (p : ℚ × ℚ) : Bool :=
  decide (|p.1| > 1/10 ∧ (p.2 / p.1) / Lratio > tol)

theorem ampLoop_eq_countP (Lratio tol : ℚ) (l : List (ℚ × ℚ)) (acc : Nat) :
    ampLoop Lratio tol l acc = acc + l.countP (ampPred Lratio tol) := by
  induction l generalizing acc with
  | nil => simp [ampLoop]
  | cons p rest ih =>
    by_cases h : |p.1| > 1/10 ∧ (p.2 / p.1) / Lratio > tol
    · have hp : ampPred Lratio tol p = true := by
        simp only [ampPred, decide_eq_true_eq]; exact h
      simp only [ampLoop]
      rw [if_pos h, ih, List.countP_cons_of_pos _ _ hp]
      omega
    · have hp : ¬ (ampPred Lratio tol p = true) := by
        simp only [ampPred, decide_eq_true_eq]; exact h
      simp only [ampLoop]
      rw [if_neg h, ih, List.countP_cons_of_neg _ _ hp]

theorem zip_self {α : Type} (l : List α) :
    l.zip l = l.map (fun a => (a, a)) := by
  induction l with
  | nil => rfl
  | cons a rest ih => simp [List.zip_cons_cons, ih]

/-- Claim C2: for all inputs whose singular-value decompositions succeed,
`get_number_amplified` returns exactly the number of rank positions `i` at
which, after sorting both singular-value lists in descending order and
pairing by position, `|v0| > 0.1` and `(v1/v0)/(L1/L0) > tolerance`; and for
`M0 == M1` with `L0 = 256`, `L1 = 2048`, `tolerance = 0.75` it returns 0. -/
theorem get_number_amplified_counts {Mat : Type}
    (svd : Mat → Option (List ℚ)) (M0 M1 : Mat) (L0 L1 tol : ℚ)
    (s0 s1 : List ℚ) (h0 : svd M0 = some s0) (h1 : svd M1 = some s1) :
    get_number_amplified svd M0 M1 L0 L1 tol
      = ((sortDesc s0).zip (sortDesc s1)).countP (ampPred (L1 / L0) tol)
    ∧ ∀ M : Mat, get_number_amplified svd M M 256 2048 (3/4) = 0 := by
  constructor
  · simp only [get_number_amplified, h0, h1]
    rw [ampLoop_eq_countP]
    omega
  · intro M
    unfold get_number_amplified
    cases hM : svd M with
    | none => rfl
    | some s =>
      simp only [hM]
      rw [ampLoop_eq_countP, zip_self, List.countP_map]
      have hzero : ∀ a ∈ sortDesc s,
          ¬ ((ampPred (2048 / 256) (3/4) ∘ fun a => (a, a)) a = true) := by
        intro a _
        simp only [Function.comp, ampPred, decide_eq_true_eq]
        rintro ⟨ha, hgt⟩
        have hane : a ≠ 0 := by
          intro h; rw [h] at ha; norm_num at ha
        rw [div_self hane] at hgt
        norm_num at hgt
      rw [List.countP_eq_zero.mpr hzero]

/-- Witness for C2 at a concrete input: a one-matrix universe whose SVD
yields `[3, 1/100]`; with `L0 = 1`, `L1 = 2`, `tol = 0` only the first
position passes the `|v0| > 0.1` floor. -/
theorem get_number_amplified_counts_witness :
    get_number_amplified (fun _ : Unit => some [3, 1/100]) () () 1 2 0
      = (((sortDesc [3, 1/100]).zip (sortDesc [3, 1/100])).countP
          (ampPred (2/1) 0))
    ∧ ∀ M : Unit,
        get_number_amplified (fun _ : Unit => some [3, 1/100]) M M 256 2048 (3/4) = 0 :=
  get_number_amplified_counts (fun _ : Unit => some [3, 1/100]) () () 1 2 0
    [3, 1/100] [3, 1/100] rfl rfl

/-- Claim C3: if the singular-value decomposition of either input matrix
fails (the `svd` oracle returns `none`), `get_number_amplified` returns 0
rather than propagating the numeric error. -/
theorem get_number_amplified_svd_failure {Mat : Type}
    (svd : Mat → Option (List ℚ)) (M0 M1 : Mat) (L0 L1 tol : ℚ)
    (h : svd M0 = none ∨ svd M1 = none) :
    get_number_amplified svd M0 M1 L0 L1 tol = 0 := by
  unfold get_number_amplified
  rcases h with h | h <;> rw [h]
  cases svd M0 <;> rfl

/-- Witness for C3: the always-failing SVD oracle yields count 0. -/
theorem get_number_amplified_svd_failure_witness :
    get_number_amplified (fun _ : Unit => (none : Option (List ℚ))) () () 256 2048 (3/4) = 0 :=
  get_number_amplified_svd_failure (fun _ : Unit => none) () () 256 2048 (3/4)
    (Or.inl rfl)

/-- Claim C5: with all other inputs fixed, the amplified count at the larger
tolerance `t2` is at most the count at the smaller tolerance `t1` (the count
is non-decreasing as tolerance decreases). -/
theorem get_number_amplified_tol_antitone {Mat : Type}
    (svd : Mat → Option (List ℚ)) (M0 M1 : Mat) (L0 L1 t1 t2 : ℚ)
    (h : t1 ≤ t2) :
    get_number_amplified svd M0 M1 L0 L1 t2
      ≤ get_number_amplified svd M0 M1 L0 L1 t1 := by
  unfold get_number_amplified
  cases h0 : svd M0 with
  | none => simp
  | some s0 =>
    cases h1 : svd M1 with
    | none => simp
    | some s1 =>
      simp only
      rw [ampLoop_eq_countP, ampLoop_eq_countP]
      simp only [Nat.zero_add]
      apply List.countP_mono_left
      intro p _ hp
      simp only [ampPred, decide_eq_true_eq] at hp ⊢
      exact ⟨hp.1, lt_of_le_of_lt h hp.2⟩

/-- Witness for C5 at concrete inputs: tolerances `0 ≤ 10` on singular
values `[5, 4]` with `L0 = 1`, `L1 = 2`. -/
theorem get_number_amplified_tol_antitone_witness :
    (0 : ℚ) ≤ 10
    ∧ get_number_amplified (fun _ : Unit => some [5, 4]) () () 1 2 10
        ≤ get_number_amplified (fun _ : Unit => some [5, 4]) () () 1 2 0 :=
  ⟨by norm_num,
   get_number_amplified_tol_antitone (fun _ : Unit => some [5, 4]) () () 1 2 0 10
     (by norm_num)⟩

/-!
## DataSet (`packages/pygsti/objects/dataset.py`)

Gate strings are embedded as `List String` (Python tuples of gate labels;
`GateString` objects are normalized to their `.tup` by the source before use,
so only the tuple form is modelled).  The ordered dictionaries `gsIndex` and
`slIndex` are association lists in insertion order; `counts` is a list of
rows (mutable mode) or the list of matrix rows (static mode).  Raised Python
exceptions and failed `assert`s become `Except.error`.
-/

/-- The `DataSet` state: `gsIndex` (gate string → row index), `slIndex`
(spam label → column index), `counts` rows, and the `bStatic` flag. -/
structure DataSet where
  gsIndex : List (List String × Nat)
  slIndex : List (String × Nat)
  counts : List (List ℚ)
  bStatic : Bool
deriving DecidableEq

/-- Python 2 `round`: round half away from zero (`round(0.5) == 1.0`,
`round(-0.5) == -1.0`), used by `add_count_list` as `round(sum(countList))`. -/
def pyRound (q : ℚ) : ℤ :=
  if 0 ≤ q then ⌊q + 1/2⌋ else -⌊-q + 1/2⌋

/-- `DataSet.add_count_list` (dataset.py lines 344-378): error when static;
no-op when the counts round to zero total; `assert` that the count list
matches the spam-label count; then accumulate into an existing row
(`self.counts[idx] += countArray`) or append a new row, recording the gate
string at index `len(self.counts)`. -/
def add_count_list (ds : DataSet) (gateString : List String)
    (countList : List ℚ) : Except String DataSet :=
  if ds.bStatic then .error "Cannot add data to a static DataSet object"
  else if pyRound countList.sum = 0 then .ok ds
  else if countList.length ≠ ds.slIndex.length then
    .error "AssertionError: len(countList) == len(slIndex)"
  else
    match List.lookup gateString ds.gsIndex with
    | some idx =>
      match ds.counts[idx]? with
      | some row =>
        .ok { ds with counts := ds.counts.set idx (List.zipWith (· + ·) row countList) }
      | none => .error "IndexError"
    | none =>
      .ok { ds with gsIndex := ds.gsIndex ++ [(gateString, ds.counts.length)],
                    counts := ds.counts ++ [countList] }

/-- The loop of `add_count_dict` (dataset.py lines 334-338): fill the
`countList` slots (initialized to `nan`, here `none`) from the label→count
mapping, erroring on an unrecognized spam label. -/
def fillCounts (slIndex : List (String × Nat)) :
    List (String × ℚ) → List (Option ℚ) → Except String (List (Option ℚ))
  | [], acc => .ok acc
  | (lbl, c) :: rest, acc =>
    match List.lookup lbl slIndex with
    | none => .error "Error adding data to Dataset: invalid spam label"
    | some i => fillCounts slIndex rest (acc.set i (some c))

/-- `DataSet.add_count_dict` (dataset.py lines 317-341): error when static;
build the count list from the dictionary, failing on unrecognized labels or
when some recognized label was never specified (a `nan` remains); then
delegate to `add_count_list`. -/
def add_count_dict (ds : DataSet) (gateString : List String)
    (countDict : List (String × ℚ)) : Except String DataSet :=
  if ds.bStatic then .error "Cannot add data to a static DataSet object"
  else
    match fillCounts ds.slIndex countDict
        (List.replicate ds.slIndex.length none) with
    | .error e => .error e
    | .ok slots =>
      if slots.any (fun o => o.isNone) then
        .error "Error adding data to Dataset: not all spam labels were specified"
      else add_count_list ds gateString (slots.map (fun o => o.getD 0))

/-- `DataSet.add_counts_1q` (dataset.py lines 380-417): error when static;
for a gate string already present, compare the stored plus-fraction
`row['plus']/(row['plus']+row['minus'])` with the new `nPlus/(nPlus+nMinus)`
(each a Python float division, raising `ZeroDivisionError` on a zero
denominator — `oldP` is computed first); on a discrepancy above 0.1 print a
warning and return without adding; otherwise (and for absent strings)
delegate to `add_count_dict`. -/
def add_counts_1q (ds : DataSet) (gateString : List String)
    (nPlus nMinus : ℚ) : Except String DataSet :=
  if ds.bStatic then .error "Cannot add data to a static DataSet object"
  else
    match List.lookup gateString ds.gsIndex with
    | some idx =>
      match ds.counts[idx]? with
      | none => .error "IndexError"
      | some row =>
        match List.lookup "plus" ds.slIndex, List.lookup "minus" ds.slIndex with
        | some ip, some im =>
          match row[ip]?, row[im]? with
          | some cp, some cm =>
            if cp + cm = 0 then .error "ZeroDivisionError"
            else if nPlus + nMinus = 0 then .error "ZeroDivisionError"
            else if |cp / (cp + cm) - nPlus / (nPlus + nMinus)| > 1/10 then
              .ok ds
            else add_count_dict ds gateString [("plus", nPlus), ("minus", nMinus)]
          | _, _ => .error "IndexError"
        | _, _ => .error "KeyError"
    | none => add_count_dict ds gateString [("plus", nPlus), ("minus", nMinus)]

/-- The row loop of `add_counts_from_dataset`: `iteritems` pairs the
`gsIndex` keys with the `counts` rows positionally; each row is added via
`add_count_list`, and a raised error aborts the remaining additions. -/
def addRows : DataSet → List (List String × List ℚ) → Except String DataSet
  | ds, [] => .ok ds
  | ds, (gs, row) :: rest =>
    match add_count_list ds gs row with
    | .error e => .error e
    | .ok ds2 => addRows ds2 rest

/-- `DataSet.add_counts_from_dataset` (dataset.py lines 419-435): error when
static; `assert` equal spam-label lists; then append every row of the other
dataset via `add_count_list`. -/
def add_counts_from_dataset (ds other : DataSet) : Except String DataSet :=
  if ds.bStatic then .error "Cannot add data to a static DataSet object"
  else if ds.slIndex.map Prod.fst ≠ other.slIndex.map Prod.fst then
    .error "AssertionError: spam labels differ"
  else addRows ds ((other.gsIndex.map Prod.fst).zip other.counts)

/-- Modelled from the spec: `remove_duplicates` (from `pygsti.tools.listtools`,
not under src/) — the spec (§4.2) describes its use as producing "a
deduplicated, sorted sample", so it removes duplicates preserving order,
keeping the first occurrence of each element. -/
def removeDuplicatesAux {α : Type} [DecidableEq α] :
    List α → List α → List α
  | [], _ => []
  | x :: xs, seen =>
    if x ∈ seen then removeDuplicatesAux xs seen
    else x :: removeDuplicatesAux xs (x :: seen)

/-- Modelled from the spec: see `removeDuplicatesAux`. -/
def remove_duplicates {α : Type} [DecidableEq α] (l : List α) : List α :=
  removeDuplicatesAux l []

/-- Insert into an ordered dictionary: an existing key keeps its position and
takes the new value; a new key is appended. -/
def odInsert (d : List (List String × Nat)) (k : List String) (v : Nat) :
    List (List String × Nat) :=
  if (List.lookup k d).isSome then
    d.map (fun p => if p.1 = k then (k, v) else p)
  else d ++ [(k, v)]

/-- Python `OrderedDict(zip(keys, values))` over a pair list. -/
def orderedDictOfPairs (l : List (List String × Nat)) :
    List (List String × Nat) :=
  l.foldl (fun d p => odInsert d p.1 p.2) []

/-- The static-branch loop of `truncate` (dataset.py lines 464-478): walk the
keep list; a missing string raises when `bThrowErrorIfStringIsMissing` else
is skipped; found strings contribute their index (and, only when not
throwing, their tuple to `gateStrings`). -/
def truncStaticLoop (gsIndex : List (List String × Nat)) (bThrow : Bool) :
    List (List String) → Except String (List (List String) × List Nat)
  | [] => .ok ([], [])
  | gs :: rest =>
    match List.lookup gs gsIndex with
    | none =>
      if bThrow then
        .error "Gate string was not found in dataset being truncated"
      else truncStaticLoop gsIndex bThrow rest
    | some idx =>
      match truncStaticLoop gsIndex bThrow rest with
      | .error e => .error e
      | .ok (strs, idxs) =>
        .ok ((if bThrow then strs else gs :: strs), idx :: idxs)

/-- `OrderedDict((sl, i) for i, sl in enumerate(labels))`: the fresh
spam-label index built by `DataSet(spamLabels=...)`. -/
def mkSlIndex (labels : List String) : List (String × Nat) :=
  labels.enum.map (fun p => (p.2, p.1))

/-- The mutable-branch loop of `truncate` (dataset.py lines 485-491): for each
kept string (duplicates removed), copy its row into the new dataset via
`add_count_list`; a missing string raises when `bThrowErrorIfStringIsMissing`
else is skipped. -/
def truncMutableLoop (srcGsIndex : List (List String × Nat))
    (srcCounts : List (List ℚ)) (bThrow : Bool) :
    List (List String) → DataSet → Except String DataSet
  | [], acc => .ok acc
  | gs :: rest, acc =>
    match List.lookup gs srcGsIndex with
    | some idx =>
      match srcCounts[idx]? with
      | some row =>
        match add_count_list acc gs row with
        | .error e => .error e
        | .ok acc2 => truncMutableLoop srcGsIndex srcCounts bThrow rest acc2
      | none => .error "IndexError"
    | none =>
      if bThrow then
        .error "Gate string was not found in dataset being truncated"
      else truncMutableLoop srcGsIndex srcCounts bThrow rest acc

/-- `DataSet.truncate` (dataset.py lines 444-493).  Static case: collect the
row indices of the kept strings, reuse `listOfGateStringsToKeep` itself as
the key list when throwing, and build the truncated static dataset over the
same (referenced) counts.  Mutable case: build a fresh mutable dataset and
add each kept string's row.  (The `DataSet.__init__` shape assertions always
hold for the well-formed datasets produced here and are not re-modelled.) -/
def truncate (ds : DataSet) (keep : List (List String)) (bThrow : Bool) :
    Except String DataSet :=
  if ds.bStatic then
    match truncStaticLoop ds.gsIndex bThrow keep with
    | .error e => .error e
    | .ok (strs, idxs) =>
      let gateStrings := if bThrow then keep else strs
      .ok ⟨orderedDictOfPairs (gateStrings.zip idxs), ds.slIndex, ds.counts, true⟩
  else
    truncMutableLoop ds.gsIndex ds.counts bThrow (remove_duplicates keep)
      ⟨[], mkSlIndex (ds.slIndex.map Prod.fst), [], false⟩

/-- A two-label mutable dataset holding one row, used as a concrete instance
in witnesses and counterexamples. -/
def dsPM : DataSet :=
  ⟨[(["Gx"], 0)], [("plus", 0), ("minus", 1)], [[10, 0]], false⟩

/-- Claim C6: for a mutable `DataSet` and a count list whose sum does not
round to zero (with the required length), `add_count_list` accumulates
element-wise into the existing row when the gate string is already a key of
`gsIndex`, and otherwise appends a new row at the next row index; and with
outcome labels `["plus","minus"]`, adding `("plus": 10, "minus": 0)` then
`("plus": 5, "minus": 5)` for the same gate string yields the row `[15, 5]`. -/
theorem add_count_list_accumulates :
    (∀ (ds : DataSet) (gs : List String) (cl : List ℚ) (idx : Nat) (row : List ℚ),
       ds.bStatic = false →
       pyRound cl.sum ≠ 0 →
       cl.length = ds.slIndex.length →
       List.lookup gs ds.gsIndex = some idx →
       ds.counts[idx]? = some row →
       add_count_list ds gs cl
         = .ok ⟨ds.gsIndex, ds.slIndex,
                ds.counts.set idx (List.zipWith (· + ·) row cl), false⟩)
    ∧ (∀ (ds : DataSet) (gs : List String) (cl : List ℚ),
       ds.bStatic = false →
       pyRound cl.sum ≠ 0 →
       cl.length = ds.slIndex.length →
       List.lookup gs ds.gsIndex = none →
       add_count_list ds gs cl
         = .ok ⟨ds.gsIndex ++ [(gs, ds.counts.length)], ds.slIndex,
                ds.counts ++ [cl], false⟩)
    ∧ (add_count_dict ⟨[], [("plus", 0), ("minus", 1)], [], false⟩
           ["Gx"] [("plus", 10), ("minus", 0)] >>= fun d1 =>
         add_count_dict d1 ["Gx"] [("plus", 5), ("minus", 5)])
        = .ok ⟨[(["Gx"], 0)], [("plus", 0), ("minus", 1)], [[15, 5]], false⟩ := by
  refine ⟨?_, ?_, ?_⟩
  · intro ds gs cl idx row hstat hsum hlen hidx hrow
    obtain ⟨gsi, sli, cnts, bs⟩ := ds
    simp only at hstat hlen hidx hrow
    subst hstat
    simp [add_count_list, hsum, hlen, hidx, hrow]
  · intro ds gs cl hstat hsum hlen hnone
    obtain ⟨gsi, sli, cnts, bs⟩ := ds
    simp only at hstat hlen hnone
    subst hstat
    simp [add_count_list, hsum, hlen, hnone]
  · have h1 : add_count_dict ⟨[], [("plus", 0), ("minus", 1)], [], false⟩
        ["Gx"] [("plus", 10), ("minus", 0)]
        = .ok ⟨[(["Gx"], 0)], [("plus", 0), ("minus", 1)], [[10, 0]], false⟩ := by
      simp [add_count_dict, fillCounts, add_count_list, List.lookup, pyRound]
      norm_num
    have h2 : add_count_dict ⟨[(["Gx"], 0)], [("plus", 0), ("minus", 1)], [[10, 0]], false⟩
        ["Gx"] [("plus", 5), ("minus", 5)]
        = .ok ⟨[(["Gx"], 0)], [("plus", 0), ("minus", 1)], [[15, 5]], false⟩ := by
      simp [add_count_dict, fillCounts, add_count_list, List.lookup, pyRound]
      norm_num
    show Except.bind _ _ = _
    rw [h1]
    exact h2

/-- Witness for C6 at a concrete input: accumulating `[1, 1]` into the
existing row `[10, 0]` of `dsPM`. -/
theorem add_count_list_accumulates_witness :
    add_count_list dsPM ["Gx"] [1, 1]
      = .ok ⟨dsPM.gsIndex, dsPM.slIndex,
             dsPM.counts.set 0 (List.zipWith (· + ·) [10, 0] [1, 1]), false⟩ :=
  add_count_list_accumulates.1 dsPM ["Gx"] [1, 1] 0 [10, 0]
    rfl (by norm_num [pyRound]) rfl rfl rfl

/-- Claim C7: for a mutable `DataSet`, `add_count_list` with a count list
whose sum rounds to zero returns successfully with the dataset entirely
unchanged. -/
theorem add_count_list_zero_sum_noop (ds : DataSet) (gs : List String)
    (cl : List ℚ) (hstat : ds.bStatic = false)
    (hsum : pyRound cl.sum = 0) :
    add_count_list ds gs cl = .ok ds := by
  simp [add_count_list, hstat, hsum]

/-- Witness for C7: adding the zero list to `dsPM` returns it unchanged. -/
theorem add_count_list_zero_sum_noop_witness :
    add_count_list dsPM ["Gy"] [0, 0] = .ok dsPM :=
  add_count_list_zero_sum_noop dsPM ["Gy"] [0, 0] rfl (by norm_num [pyRound])

/-- Claim C8: on a static `DataSet`, each of `add_count_list`,
`add_count_dict`, `add_counts_1q` and `add_counts_from_dataset` fails
immediately with the static-dataset error; in this pure embedding the input
dataset is returned untouched inside no result, so the failed call leaves
`gsIndex`, `slIndex`, `counts` and `bStatic` unchanged. -/
theorem static_dataset_mutation_fails (ds : DataSet)
    (hstat : ds.bStatic = true) :
    (∀ gs cl, add_count_list ds gs cl
        = .error "Cannot add data to a static DataSet object")
    ∧ (∀ gs cd, add_count_dict ds gs cd
        = .error "Cannot add data to a static DataSet object")
    ∧ (∀ gs nPlus nMinus, add_counts_1q ds gs nPlus nMinus
        = .error "Cannot add data to a static DataSet object")
    ∧ (∀ other, add_counts_from_dataset ds other
        = .error "Cannot add data to a static DataSet object") :=
  ⟨fun gs cl => by simp [add_count_list, hstat],
   fun gs cd => by simp [add_count_dict, hstat],
   fun gs nPlus nMinus => by simp [add_counts_1q, hstat],
   fun other => by simp [add_counts_from_dataset, hstat]⟩

/-- Witness for C8 on a concrete static dataset. -/
theorem static_dataset_mutation_fails_witness :
    add_count_list ⟨[(["Gx"], 0)], [("plus", 0)], [[4]], true⟩ ["Gx"] [1]
      = .error "Cannot add data to a static DataSet object" :=
  (static_dataset_mutation_fails ⟨[(["Gx"], 0)], [("plus", 0)], [[4]], true⟩
    rfl).1 ["Gx"] [1]

/-- Counterexample to claim C10 as stated: on `dsPM` (which stores the row
`[10, 0]` for `("Gx",)`, stored plus-fraction 1), calling
`add_counts_1q` with `nPlus = nMinus = 0` raises `ZeroDivisionError`
(computing `nPlus/float(nPlus+nMinus)`) instead of returning without raising
and discarding the counts: the claim's branches never apply when
`nPlus + nMinus = 0`. -/
theorem add_counts_1q_zero_total_cex :
    add_counts_1q dsPM ["Gx"] 0 0 = .error "ZeroDivisionError"
    ∧ ∀ d : DataSet, add_counts_1q dsPM ["Gx"] 0 0 ≠ .ok d := by
  have h : add_counts_1q dsPM ["Gx"] 0 0 = .error "ZeroDivisionError" := by
    simp [add_counts_1q, dsPM, List.lookup]
  exact ⟨h, fun d hd => by rw [h] at hd; exact Except.noConfusion hd⟩

/-- Claim C10 (amended): for a mutable `DataSet` with spam labels `plus` and
`minus`, provided the stored row's total `plus + minus` and the new total
`nPlus + nMinus` are both nonzero (otherwise `add_counts_1q` fails with a
`ZeroDivisionError`): when the gate string is present and the new
plus-fraction differs from the stored one by more than 0.1 the call returns
without modifying the dataset, and otherwise the counts are accumulated via
`add_count_dict`; for an absent gate string the counts go directly to
`add_count_dict`. -/
theorem add_counts_1q_guarded (ds : DataSet) (gs : List String)
    (nPlus nMinus : ℚ) (hstat : ds.bStatic = false) :
    (∀ (idx : Nat) (row : List ℚ) (ip im : Nat) (cp cm : ℚ),
       List.lookup gs ds.gsIndex = some idx →
       ds.counts[idx]? = some row →
       List.lookup "plus" ds.slIndex = some ip →
       List.lookup "minus" ds.slIndex = some im →
       row[ip]? = some cp →
       row[im]? = some cm →
       cp + cm ≠ 0 →
       nPlus + nMinus ≠ 0 →
       add_counts_1q ds gs nPlus nMinus
         = if |cp / (cp + cm) - nPlus / (nPlus + nMinus)| > 1/10 then .ok ds
           else add_count_dict ds gs [("plus", nPlus), ("minus", nMinus)])
    ∧ (List.lookup gs ds.gsIndex = none →
       add_counts_1q ds gs nPlus nMinus
         = add_count_dict ds gs [("plus", nPlus), ("minus", nMinus)]) := by
  constructor
  · intro idx row ip im cp cm h1 h2 h3 h4 h5 h6 h7 h8
    simp [add_counts_1q, hstat, h1, h2, h3, h4, h5, h6, h7, h8]
  · intro h
    simp [add_counts_1q, hstat, h]

/-- Witness for the amended C10 at a concrete input: adding 9 plus and
1 minus to the stored row `[10, 0]` of `dsPM` (fractions 1 and 9/10,
discrepancy exactly 0.1, not above it, so the counts accumulate). -/
theorem add_counts_1q_guarded_witness :
    add_counts_1q dsPM ["Gx"] 9 1
      = if |(10:ℚ) / (10 + 0) - 9 / (9 + 1)| > 1/10 then .ok dsPM
        else add_count_dict dsPM ["Gx"] [("plus", 9), ("minus", 1)] :=
  (add_counts_1q_guarded dsPM ["Gx"] 9 1 rfl).1 0 [10, 0] 0 1 10 0
    rfl rfl rfl rfl rfl rfl (by norm_num) (by norm_num)

theorem truncStaticLoop_strs_subset (gsIndex : List (List String × Nat))
    (b : Bool) (keep : List (List String)) (strs : List (List String))
    (idxs : List Nat) (h : truncStaticLoop gsIndex b keep = .ok (strs, idxs)) :
    ∀ g ∈ strs, g ∈ keep := by
  induction keep generalizing strs idxs with
  | nil =>
    simp only [truncStaticLoop] at h
    cases h
    simp
  | cons gs rest ih =>
    simp only [truncStaticLoop] at h
    cases hl : List.lookup gs gsIndex with
    | none =>
      simp only [hl] at h
      cases b with
      | true => simp at h
      | false =>
        simp only [Bool.false_eq_true, if_false] at h
        intro g hg
        exact List.mem_cons_of_mem _ (ih strs idxs h g hg)
    | some idx =>
      simp only [hl] at h
      cases hrec : truncStaticLoop gsIndex b rest with
      | error e => simp [hrec] at h
      | ok pr =>
        obtain ⟨strs0, idxs0⟩ := pr
        simp only [hrec, Except.ok.injEq, Prod.mk.injEq] at h
        obtain ⟨h5, h6⟩ := h
        subst h5
        intro g hg
        cases b with
        | true =>
          simp only [if_true] at hg
          exact List.mem_cons_of_mem _ (ih strs0 idxs0 hrec g hg)
        | false =>
          simp only [Bool.false_eq_true, if_false] at hg
          rcases List.mem_cons.mp hg with h1 | h1
          · exact h1 ▸ List.mem_cons_self _ _
          · exact List.mem_cons_of_mem _ (ih strs0 idxs0 hrec g h1)

theorem truncStaticLoop_missing_error (gsIndex : List (List String × Nat))
    (keep : List (List String))
    (h : ∃ g ∈ keep, List.lookup g gsIndex = none) :
    ∃ e, truncStaticLoop gsIndex true keep = .error e := by
  induction keep with
  | nil => obtain ⟨g, hg, _⟩ := h; cases hg
  | cons gs rest ih =>
    obtain ⟨g, hg, hnone⟩ := h
    rcases List.mem_cons.mp hg with h1 | h1
    · subst h1
      refine ⟨"Gate string was not found in dataset being truncated", ?_⟩
      simp [truncStaticLoop, hnone]
    · cases hl : List.lookup gs gsIndex with
      | none =>
        refine ⟨"Gate string was not found in dataset being truncated", ?_⟩
        simp [truncStaticLoop, hl]
      | some idx =>
        obtain ⟨e, he⟩ := ih ⟨g, h1, hnone⟩
        exact ⟨e, by simp [truncStaticLoop, hl, he]⟩

theorem odInsert_keys (d : List (List String × Nat)) (k a : List String)
    (v : Nat) (h : k ∈ (odInsert d a v).map Prod.fst) :
    k ∈ d.map Prod.fst ∨ k = a := by
  unfold odInsert at h
  by_cases hk : (List.lookup a d).isSome
  · rw [if_pos hk, List.map_map] at h
    obtain ⟨p, hp, hpk⟩ := List.mem_map.mp h
    by_cases hpa : p.1 = a
    · simp only [Function.comp, if_pos hpa] at hpk
      exact Or.inr hpk.symm
    · simp only [Function.comp, if_neg hpa] at hpk
      exact Or.inl (hpk ▸ List.mem_map_of_mem Prod.fst hp)
  · rw [if_neg hk, List.map_append] at h
    rcases List.mem_append.mp h with h1 | h1
    · exact Or.inl h1
    · simp at h1
      exact Or.inr h1

theorem odFold_keys (l : List (List String × Nat))
    (d : List (List String × Nat)) (k : List String)
    (h : k ∈ (l.foldl (fun d p => odInsert d p.1 p.2) d).map Prod.fst) :
    k ∈ d.map Prod.fst ∨ k ∈ l.map Prod.fst := by
  induction l generalizing d with
  | nil => exact Or.inl h
  | cons p rest ih =>
    simp only [List.foldl_cons] at h
    rcases ih (odInsert d p.1 p.2) h with h1 | h1
    · rcases odInsert_keys d k p.1 p.2 h1 with h2 | h2
      · exact Or.inl h2
      · exact Or.inr (by simp [h2])
    · exact Or.inr (List.mem_cons_of_mem _ h1)

theorem orderedDictOfPairs_keys (l : List (List String × Nat))
    (k : List String) (h : k ∈ (orderedDictOfPairs l).map Prod.fst) :
    k ∈ l.map Prod.fst := by
  rcases odFold_keys l [] k h with h1 | h1
  · cases h1
  · exact h1

theorem add_count_list_keys (ds ds2 : DataSet) (gs : List String)
    (cl : List ℚ) (h : add_count_list ds gs cl = .ok ds2) :
    ∀ k ∈ ds2.gsIndex.map Prod.fst, k ∈ ds.gsIndex.map Prod.fst ∨ k = gs := by
  unfold add_count_list at h
  by_cases h1 : ds.bStatic
  · simp [h1] at h
  rw [if_neg h1] at h
  by_cases h2 : pyRound cl.sum = 0
  · rw [if_pos h2] at h
    cases h
    exact fun k hk => Or.inl hk
  rw [if_neg h2] at h
  by_cases h3 : cl.length ≠ ds.slIndex.length
  · simp [h3] at h
  rw [if_neg h3] at h
  cases hl : List.lookup gs ds.gsIndex with
  | some idx =>
    simp only [hl] at h
    cases hrow : ds.counts[idx]? with
    | none => simp [hrow] at h
    | some row =>
      simp only [hrow] at h
      cases h
      exact fun k hk => Or.inl hk
  | none =>
    simp only [hl] at h
    cases h
    intro k hk
    simp only [List.map_append] at hk
    rcases List.mem_append.mp hk with hk1 | hk1
    · exact Or.inl hk1
    · simp at hk1
      exact Or.inr hk1

theorem truncMutableLoop_keys (src : List (List String × Nat))
    (cnts : List (List ℚ)) (b : Bool) (lst : List (List String))
    (acc ds' : DataSet)
    (h : truncMutableLoop src cnts b lst acc = .ok ds') :
    ∀ k ∈ ds'.gsIndex.map Prod.fst, k ∈ acc.gsIndex.map Prod.fst ∨ k ∈ lst := by
  induction lst generalizing acc with
  | nil =>
    simp only [truncMutableLoop] at h
    cases h
    exact fun k hk => Or.inl hk
  | cons gs rest ih =>
    simp only [truncMutableLoop] at h
    cases hl : List.lookup gs src with
    | some idx =>
      simp only [hl] at h
      cases hrow : cnts[idx]? with
      | none => simp [hrow] at h
      | some row =>
        simp only [hrow] at h
        cases hadd : add_count_list acc gs row with
        | error e => simp [hadd] at h
        | ok acc2 =>
          simp only [hadd] at h
          intro k hk
          rcases ih acc2 h k hk with h1 | h1
          · rcases add_count_list_keys acc acc2 gs row hadd k h1 with h2 | h2
            · exact Or.inl h2
            · exact Or.inr (by simp [h2])
          · exact Or.inr (List.mem_cons_of_mem _ h1)
    | none =>
      simp only [hl] at h
      cases b with
      | true => simp at h
      | false =>
        simp only [Bool.false_eq_true, if_false] at h
        intro k hk
        rcases ih acc h k hk with h1 | h1
        · exact Or.inl h1
        · exact Or.inr (List.mem_cons_of_mem _ h1)

theorem truncMutableLoop_missing_error (src : List (List String × Nat))
    (cnts : List (List ℚ)) (lst : List (List String)) (acc : DataSet)
    (h : ∃ g ∈ lst, List.lookup g src = none) :
    ∃ e, truncMutableLoop src cnts true lst acc = .error e := by
  induction lst generalizing acc with
  | nil => obtain ⟨g, hg, _⟩ := h; cases hg
  | cons gs rest ih =>
    obtain ⟨g, hg, hnone⟩ := h
    rcases List.mem_cons.mp hg with h1 | h1
    · subst h1
      refine ⟨"Gate string was not found in dataset being truncated", ?_⟩
      simp [truncMutableLoop, hnone]
    · cases hl : List.lookup gs src with
      | none =>
        refine ⟨"Gate string was not found in dataset being truncated", ?_⟩
        simp [truncMutableLoop, hl]
      | some idx =>
        cases hrow : cnts[idx]? with
        | none => exact ⟨"IndexError", by simp [truncMutableLoop, hl, hrow]⟩
        | some row =>
          cases hadd : add_count_list acc gs row with
          | error e => exact ⟨e, by simp [truncMutableLoop, hl, hrow, hadd]⟩
          | ok acc2 =>
            obtain ⟨e, he⟩ := ih acc2 ⟨g, h1, hnone⟩
            exact ⟨e, by simp [truncMutableLoop, hl, hrow, hadd, he]⟩

theorem mem_of_mem_removeDuplicatesAux {α : Type} [DecidableEq α]
    (l seen : List α) (a : α) (h : a ∈ removeDuplicatesAux l seen) :
    a ∈ l := by
  induction l generalizing seen with
  | nil => cases h
  | cons x xs ih =>
    simp only [removeDuplicatesAux] at h
    by_cases hx : x ∈ seen
    · rw [if_pos hx] at h
      exact List.mem_cons_of_mem _ (ih seen h)
    · rw [if_neg hx] at h
      rcases List.mem_cons.mp h with h1 | h1
      · exact h1 ▸ List.mem_cons_self _ _
      · exact List.mem_cons_of_mem _ (ih (x :: seen) h1)

theorem mem_removeDuplicatesAux_of_mem {α : Type} [DecidableEq α]
    (l : List α) (a : α) (ha : a ∈ l) :
    ∀ seen : List α, a ∉ seen → a ∈ removeDuplicatesAux l seen := by
  induction l with
  | nil => cases ha
  | cons x xs ih =>
    intro seen hseen
    simp only [removeDuplicatesAux]
    rcases List.mem_cons.mp ha with h1 | h1
    · subst h1
      rw [if_neg hseen]
      exact List.mem_cons_self _ _
    · by_cases hx : x ∈ seen
      · rw [if_pos hx]
        exact ih h1 seen hseen
      · rw [if_neg hx]
        by_cases hax : a = x
        · exact hax ▸ List.mem_cons_self _ _
        · refine List.mem_cons_of_mem _ (ih h1 (x :: seen) ?_)
          intro hmem
          rcases List.mem_cons.mp hmem with h2 | h2
          · exact hax h2
          · exact hseen h2

/-- Claim C9: every gate string of a successfully truncated `DataSet`
appears in the keep-list (truncation never adds strings not requested), and
with `bThrowErrorIfStringIsMissing = true` a keep-list containing a string
absent from the source makes `truncate` fail with an error, producing no
(partially truncated) result. -/
theorem truncate_keys_subset_and_fail_fast (ds : DataSet)
    (keep : List (List String)) :
    (∀ (bThrow : Bool) (ds' : DataSet), truncate ds keep bThrow = .ok ds' →
       ∀ g ∈ ds'.gsIndex.map Prod.fst, g ∈ keep)
    ∧ ((∃ g ∈ keep, List.lookup g ds.gsIndex = none) →
       ∃ e, truncate ds keep true = .error e) := by
  constructor
  · intro bThrow ds' h g hg
    unfold truncate at h
    by_cases hb : ds.bStatic
    · rw [if_pos hb] at h
      cases hloop : truncStaticLoop ds.gsIndex bThrow keep with
      | error e => rw [hloop] at h; cases h
      | ok pr =>
        obtain ⟨strs, idxs⟩ := pr
        rw [hloop] at h
        cases h
        simp only at hg
        have h1 := orderedDictOfPairs_keys _ g hg
        obtain ⟨p, hp, hpk⟩ := List.mem_map.mp h1
        have h2 := (List.of_mem_zip hp).1
        cases bThrow with
        | true => rw [if_pos rfl] at h2; exact hpk ▸ h2
        | false =>
          rw [if_neg Bool.false_ne_true] at h2
          exact hpk ▸ truncStaticLoop_strs_subset ds.gsIndex false keep
            strs idxs hloop p.1 h2
    · rw [if_neg hb] at h
      have h1 := truncMutableLoop_keys ds.gsIndex ds.counts bThrow
        (remove_duplicates keep) _ ds' h g hg
      rcases h1 with h2 | h2
      · cases h2
      · exact mem_of_mem_removeDuplicatesAux keep [] g h2
  · intro hmiss
    unfold truncate
    by_cases hb : ds.bStatic
    · rw [if_pos hb]
      obtain ⟨e, he⟩ := truncStaticLoop_missing_error ds.gsIndex keep hmiss
      exact ⟨e, by rw [he]⟩
    · rw [if_neg hb]
      obtain ⟨g, hg, hnone⟩ := hmiss
      exact truncMutableLoop_missing_error ds.gsIndex ds.counts
        (remove_duplicates keep) _
        ⟨g, mem_removeDuplicatesAux_of_mem keep g hg [] (List.not_mem_nil g), hnone⟩

/-- Witness for C9: truncating `dsPM` to the absent string `("Gy",)` with
the throwing flag fails. -/
theorem truncate_keys_subset_and_fail_fast_witness :
    ∃ e, truncate dsPM [["Gy"]] true = .error e :=
  (truncate_keys_subset_and_fail_fast dsPM [["Gy"]]).2
    ⟨["Gy"], by simp, by simp [List.lookup, dsPM]⟩

/-!
## Gate-string compression (dataset.py lines 611-696)

A Python tuple handled by `compress_gate_label_tuple` /
`expand_gate_label_tuple` is heterogeneous: it may hold bare gate-label
strings (including the `"CCC"` marker) and `(period, repeatCount)` run
pairs.  `GSElem` embeds one tuple element.  The float scores
(`4.1/periodLen` and `sqrt(periodLen)*n`) are embedded by their squares,
which are rational; squaring is strictly monotone on nonnegative reals, so
every comparison — and hence `numpy.argmax` — is unchanged.  (The
round-trip property is independent of which positive-score period the
argmax selects, so float rounding in the original cannot affect it.)
-/

/-- One element of a (possibly compressed) gate-string tuple. -/
inductive GSElem where
  | lbl (s : String)
  | run (period : List String) (n : Nat)
deriving DecidableEq

/-- The `while` loop of `_getNumPeriods` (dataset.py lines 611-616), with
fuel: counts the contiguous exact copies of the window `w` at the head of
`s` (Python's clamped slices make a short final chunk compare unequal,
ending the loop).  Each successful step consumes `w.length` elements, so
for nonempty `w` a fuel of `s.length + 1` is never exhausted. -/
def countRepsFuel : Nat → List String → List String → Nat
  | 0, _, _ => 0
  | fuel+1, w, s =>
    if s.take w.length = w then 1 + countRepsFuel fuel w (s.drop w.length)
    else 0

/-- `_getNumPeriods(gateString, periodLen)`: 0 when the string is shorter
than the period, else the repetition count of the leading `periodLen`
window.  (Callers only pass `periodLen ≥ 1`; Python would not terminate on
`periodLen = 0`.) -/
def _getNumPeriods (gateString : List String) (periodLen : Nat) : Nat :=
  if gateString.length < periodLen then 0
  else countRepsFuel (gateString.length + 1) (gateString.take periodLen) gateString

/-- The candidate score of dataset.py lines 655-657, embedded by its square:
`n = 0 ↦ 0`, `n = 1 ↦ (4.1/p)² = 1681/(100 p²)`, `n ≥ 2 ↦ (sqrt(p)·n)² = p n²`. -/
def scoreSq (p n : Nat) : ℚ :=
  if n = 0 then 0
  else if n = 1 then 1681 / (100 * (p : ℚ)^2)
  else (p : ℚ) * (n : ℚ)^2

/-- `numpy.argmax`: index of the first occurrence of the maximum value. -/
def argmaxQ : List ℚ → Nat
  | [] => 0
  | [_] => 0
  | x :: y :: rest =>
    let j := argmaxQ (y :: rest)
    if (y :: rest).getD j 0 > x then j + 1 else 0

/-- The score list of one iteration of the `compress_gate_label_tuple` loop:
index 0 keeps its `zeros` initialization, index `p ∈ [1, maxPer]` holds the
(squared) score of period length `p` on the remaining string `r`. -/
def scoreList (maxPer : Nat) (r : List String) : List ℚ :=
  (List.range (maxPer + 1)).map
    (fun p => if p = 0 then 0 else scoreSq p (_getNumPeriods r p))

/-- The `while start < L` loop of `compress_gate_label_tuple` (dataset.py
lines 649-670), with fuel, accumulating the emitted `(period, repeatCount)`
runs in reverse.  `numperiods[0]` keeps its `zeros` initialization.  The
failed `assert(n > 0 and bestPeriodLen > 0)` is `none`; the merge branch
collapses a new singleton run into a preceding singleton run (`start > 0`
corresponds to a nonempty accumulator). -/
def compressAux (maxPer : Nat) : Nat → List (List String × Nat) → List String →
    Option (List (List String × Nat))
  | 0, acc, r => if r.isEmpty then some acc.reverse else none
  | fuel+1, acc, r =>
    if r.isEmpty then some acc.reverse
    else
      let bestLen := argmaxQ (scoreList maxPer r)
      let n := if bestLen = 0 then 0 else _getNumPeriods r bestLen
      if n = 0 ∨ bestLen = 0 then none
      else
        let bestPeriod := r.take bestLen
        match acc with
        | (q, 1) :: accRest =>
          if n = 1 then
            compressAux maxPer fuel ((q ++ bestPeriod, 1) :: accRest)
              (r.drop (bestLen * n))
          else
            compressAux maxPer fuel ((bestPeriod, n) :: (q, 1) :: accRest)
              (r.drop (bestLen * n))
        | _ =>
          compressAux maxPer fuel ((bestPeriod, n) :: acc) (r.drop (bestLen * n))

/-- `compress_gate_label_tuple(gateString, minLenToCompress,
maxPeriodToLookFor)` (dataset.py lines 618-672): strings shorter than
`minLenToCompress` are returned as plain label tuples; otherwise the runs
are emitted behind the `"CCC"` marker.  `none` embeds the raised
`AssertionError`. -/
def compress_gate_label_tuple (gateString : List String)
    (minLenToCompress maxPeriodToLookFor : Nat) : Option (List GSElem) :=
  if gateString.length < minLenToCompress then some (gateString.map GSElem.lbl)
  else
    (compressAux maxPeriodToLookFor (gateString.length + 1) [] gateString).map
      (fun runs => GSElem.lbl "CCC" :: runs.map (fun pr => GSElem.run pr.1 pr.2))

/-- Expansion of one tuple element after the marker: a `(period, n)` run
yields `period * n`; a bare label cannot be unpacked as a pair (Python
raises), embedded as `none`. -/
def expandElem : GSElem → Option (List GSElem)
  | GSElem.lbl _ => none
  | GSElem.run p n => some ((List.replicate n p).flatten.map GSElem.lbl)

/-- The `for (period, n) in compressedGateString[1:]` loop: expand each
element in order, failing at the first element that is not a run pair. -/
def expandLoop : List GSElem → Option (List (List GSElem))
  | [] => some []
  | e :: rest =>
    match expandElem e, expandLoop rest with
    | some x, some xs => some (x :: xs)
    | _, _ => none

/-- `expand_gate_label_tuple(compressedGateString)` (dataset.py lines
674-696): the empty tuple yields `()`; a tuple not starting with the
`"CCC"` marker is returned unchanged; otherwise the runs after the marker
are concatenated, each repeated its count times. -/
def expand_gate_label_tuple (c : List GSElem) : Option (List GSElem) :=
  match c with
  | [] => some []
  | first :: rest =>
    if first = GSElem.lbl "CCC" then (expandLoop rest).map List.flatten
    else some c

/-- The gate labels covered by one emitted run. -/
def runConcat (pr : List String × Nat) : List String :=
  (List.replicate pr.2 pr.1).flatten

/-- The gate labels covered by a run list, in order. -/
def runsConcat (runs : List (List String × Nat)) : List String :=
  (runs.map runConcat).flatten

theorem countRepsFuel_spec (w : List String) :
    ∀ (fuel : Nat) (s : List String), s.length < fuel →
      (List.replicate (countRepsFuel fuel w s) w).flatten
        ++ s.drop (w.length * countRepsFuel fuel w s) = s := by
  intro fuel
  induction fuel with
  | zero => intro s hs; exact absurd hs (Nat.not_lt_zero _)
  | succ fuel ih =>
    intro s hs
    by_cases hw : w = []
    · subst hw
      simp
    · simp only [countRepsFuel]
      by_cases ht : s.take w.length = w
      · rw [if_pos ht]
        have hwlen : w.length ≤ s.length := by
          by_contra hcon
          push_neg at hcon
          have hlen : (s.take w.length).length = s.length := by
            rw [List.length_take]
            omega
          rw [ht] at hlen
          omega
        have hwpos : 0 < w.length := List.length_pos.mpr hw
        have hdrop : (s.drop w.length).length < fuel := by
          rw [List.length_drop]
          omega
        have ihs := ih (s.drop w.length) hdrop
        have hidx : w.length * (countRepsFuel fuel w (s.drop w.length) + 1)
            = w.length + w.length * countRepsFuel fuel w (s.drop w.length) := by
          ring
        rw [Nat.add_comm 1 _, List.replicate_succ, List.flatten_cons,
            List.append_assoc, hidx, ← List.drop_drop, ihs]
        have htd := List.take_append_drop w.length s
        rw [ht] at htd
        exact htd
      · rw [if_neg ht]
        simp

theorem getNumPeriods_cover (r : List String) (p : Nat) :
    (List.replicate (_getNumPeriods r p) (r.take p)).flatten
      ++ r.drop (p * _getNumPeriods r p) = r := by
  unfold _getNumPeriods
  by_cases hlt : r.length < p
  · rw [if_pos hlt]
    simp
  · rw [if_neg hlt]
    have htk : (r.take p).length = p := by
      rw [List.length_take]
      omega
    have h := countRepsFuel_spec (r.take p) (r.length + 1) r (Nat.lt_succ_self _)
    rw [htk] at h
    exact h

theorem getNumPeriods_one_pos (r : List String) (hr : r ≠ []) :
    1 ≤ _getNumPeriods r 1 := by
  unfold _getNumPeriods
  have hlen : 1 ≤ r.length := List.length_pos.mpr hr
  rw [if_neg (by omega)]
  cases r with
  | nil => exact absurd rfl hr
  | cons a rest =>
    simp only [countRepsFuel, List.length_take]
    rw [if_pos (by simp)]
    omega

theorem argmaxQ_lt_length (l : List ℚ) (hl : l ≠ []) :
    argmaxQ l < l.length := by
  induction l with
  | nil => exact absurd rfl hl
  | cons x xs ih =>
    cases xs with
    | nil => simp [argmaxQ]
    | cons y rest =>
      simp only [argmaxQ]
      by_cases hgt : (y :: rest).getD (argmaxQ (y :: rest)) 0 > x
      · rw [if_pos hgt]
        have := ih (List.cons_ne_nil y rest)
        simp only [List.length_cons] at this ⊢
        omega
      · rw [if_neg hgt]
        simp

theorem argmaxQ_ge (l : List ℚ) :
    ∀ i, i < l.length → l.getD i 0 ≤ l.getD (argmaxQ l) 0 := by
  induction l with
  | nil => intro i hi; simp at hi
  | cons x xs ih =>
    cases xs with
    | nil =>
      intro i hi
      simp only [List.length_cons, List.length_nil] at hi
      interval_cases i
      simp [argmaxQ]
    | cons y rest =>
      intro i hi
      simp only [argmaxQ]
      by_cases hgt : (y :: rest).getD (argmaxQ (y :: rest)) 0 > x
      · rw [if_pos hgt]
        cases i with
        | zero => simpa using le_of_lt hgt
        | succ i =>
          simp only [List.getD_cons_succ]
          exact ih i (by simpa using hi)
      · rw [if_neg hgt]
        cases i with
        | zero => simp
        | succ i =>
          simp only [List.getD_cons_succ, List.getD_cons_zero]
          exact le_trans (ih i (by simpa using hi)) (le_of_not_lt hgt)

theorem scoreList_getD (maxPer : Nat) (r : List String) (i : Nat)
    (hi : i < maxPer + 1) :
    (scoreList maxPer r).getD i 0
      = if i = 0 then 0 else scoreSq i (_getNumPeriods r i) := by
  unfold scoreList
  rw [List.getD_eq_getElem?_getD, List.getElem?_map, List.getElem?_range hi]
  rfl

theorem scoreList_length (maxPer : Nat) (r : List String) :
    (scoreList maxPer r).length = maxPer + 1 := by
  simp [scoreList]

theorem scoreSq_pos (p n : Nat) (hp : 1 ≤ p) (hn : 1 ≤ n) :
    0 < scoreSq p n := by
  unfold scoreSq
  rw [if_neg (by omega)]
  by_cases h1 : n = 1
  · rw [if_pos h1]
    positivity
  · rw [if_neg h1]
    have hp' : (0:ℚ) < p := by exact_mod_cast hp
    have hn' : (0:ℚ) < n := by exact_mod_cast hn
    positivity

theorem scoreSq_ne_zero_imp (p n : Nat) (h : scoreSq p n ≠ 0) : n ≠ 0 := by
  intro hn
  subst hn
  simp [scoreSq] at h

/-- On a nonempty remainder with `maxPer ≥ 1`, the argmax never lands on
index 0 and its period count is positive, so the `assert` always passes. -/
theorem argmax_good (maxPer : Nat) (r : List String) (hr : r ≠ [])
    (hmax : 1 ≤ maxPer) :
    argmaxQ (scoreList maxPer r) ≠ 0
    ∧ _getNumPeriods r (argmaxQ (scoreList maxPer r)) ≠ 0 := by
  have hlen := scoreList_length maxPer r
  have hne : scoreList maxPer r ≠ [] := by
    intro h
    rw [h] at hlen
    simp at hlen
  have hblt : argmaxQ (scoreList maxPer r) < maxPer + 1 := by
    have := argmaxQ_lt_length (scoreList maxPer r) hne
    omega
  have h1lt : 1 < (scoreList maxPer r).length := by omega
  have hge := argmaxQ_ge (scoreList maxPer r) 1 h1lt
  rw [scoreList_getD maxPer r 1 (by omega)] at hge
  rw [if_neg (by omega)] at hge
  have hpos1 : 0 < scoreSq 1 (_getNumPeriods r 1) :=
    scoreSq_pos 1 _ le_rfl (getNumPeriods_one_pos r hr)
  have hbestpos : 0 < (scoreList maxPer r).getD (argmaxQ (scoreList maxPer r)) 0 :=
    lt_of_lt_of_le hpos1 hge
  rw [scoreList_getD maxPer r _ hblt] at hbestpos
  by_cases hb0 : argmaxQ (scoreList maxPer r) = 0
  · rw [if_pos hb0] at hbestpos
    exact absurd hbestpos (lt_irrefl 0)
  · rw [if_neg hb0] at hbestpos
    exact ⟨hb0, scoreSq_ne_zero_imp _ _ (ne_of_gt hbestpos)⟩

theorem runsConcat_append (l1 l2 : List (List String × Nat)) :
    runsConcat (l1 ++ l2) = runsConcat l1 ++ runsConcat l2 := by
  simp [runsConcat]

theorem runsConcat_reverse_cons (p : List String × Nat)
    (l : List (List String × Nat)) :
    runsConcat ((p :: l).reverse) = runsConcat l.reverse ++ runConcat p := by
  rw [List.reverse_cons, runsConcat_append]
  simp [runsConcat]

/-- The main invariant of the compression loop: with enough fuel and
`maxPer ≥ 1` it succeeds, and the emitted runs cover exactly the already
accumulated labels followed by the remaining string. -/
theorem compressAux_spec (maxPer : Nat) (hmax : 1 ≤ maxPer) :
    ∀ (fuel : Nat) (r : List String) (acc : List (List String × Nat)),
      r.length < fuel →
      ∃ runs, compressAux maxPer fuel acc r = some runs
        ∧ runsConcat runs = runsConcat acc.reverse ++ r := by
  intro fuel
  induction fuel with
  | zero => intro r acc hr; exact absurd hr (Nat.not_lt_zero _)
  | succ fuel ih =>
    intro r acc hr
    by_cases hre : r.isEmpty
    · refine ⟨acc.reverse, ?_, ?_⟩
      · simp [compressAux, hre]
      · rw [List.isEmpty_iff] at hre
        rw [hre, List.append_nil]
    · have hrne : r ≠ [] := by
        intro h
        rw [h] at hre
        simp at hre
      obtain ⟨hb0, hn0⟩ := argmax_good maxPer r hrne hmax
      have hguard : ¬(_getNumPeriods r (argmaxQ (scoreList maxPer r)) = 0
          ∨ argmaxQ (scoreList maxPer r) = 0) := by
        push_neg
        exact ⟨hn0, hb0⟩
      rcases acc with _ | ⟨⟨q, k⟩, accRest⟩
      · simp only [compressAux, hre, Bool.false_eq_true, if_false,
          if_neg hb0, if_neg hguard]
        set bestLen := argmaxQ (scoreList maxPer r) with hbl
        set n := _getNumPeriods r bestLen with hn
        have hsplit : (List.replicate n (r.take bestLen)).flatten
            ++ r.drop (bestLen * n) = r := getNumPeriods_cover r bestLen
        have hbpos : 1 ≤ bestLen := Nat.one_le_iff_ne_zero.mpr hb0
        have hnpos : 1 ≤ n := Nat.one_le_iff_ne_zero.mpr hn0
        have hdroplt : (r.drop (bestLen * n)).length < fuel := by
          rw [List.length_drop]
          have h1 : 1 ≤ bestLen * n := Nat.mul_le_mul hbpos hnpos
          have h2 : 0 < r.length := List.length_pos.mpr hrne
          omega
        obtain ⟨runs, hrun, hconcat⟩ := ih (r.drop (bestLen * n))
          [(r.take bestLen, n)] hdroplt
        refine ⟨runs, hrun, ?_⟩
        rw [hconcat]
        simp only [List.reverse_cons, List.reverse_nil, List.nil_append,
          runsConcat, runConcat, List.map_cons, List.map_nil,
          List.flatten_cons, List.flatten_nil, List.append_nil, List.nil_append]
        exact hsplit
      · match k with
        | 1 =>
          simp only [compressAux, hre, Bool.false_eq_true, if_false,
            if_neg hb0, if_neg hguard]
          set bestLen := argmaxQ (scoreList maxPer r) with hbl
          set n := _getNumPeriods r bestLen with hn
          have hsplit : (List.replicate n (r.take bestLen)).flatten
              ++ r.drop (bestLen * n) = r := getNumPeriods_cover r bestLen
          have hbpos : 1 ≤ bestLen := Nat.one_le_iff_ne_zero.mpr hb0
          have hnpos : 1 ≤ n := Nat.one_le_iff_ne_zero.mpr hn0
          have hdroplt : (r.drop (bestLen * n)).length < fuel := by
            rw [List.length_drop]
            have h1 : 1 ≤ bestLen * n := Nat.mul_le_mul hbpos hnpos
            have h2 : 0 < r.length := List.length_pos.mpr hrne
            omega
          by_cases hn1 : n = 1
          · rw [if_pos hn1]
            obtain ⟨runs, hrun, hconcat⟩ := ih (r.drop (bestLen * n))
              ((q ++ r.take bestLen, 1) :: accRest) hdroplt
            refine ⟨runs, hrun, ?_⟩
            rw [hconcat, runsConcat_reverse_cons, runsConcat_reverse_cons]
            have hfl : (List.replicate n (r.take bestLen)).flatten
                = r.take bestLen := by
              rw [hn1]
              simp
            rw [hfl] at hsplit
            have hq2 : runConcat (q ++ r.take bestLen, 1) = q ++ r.take bestLen := by
              simp [runConcat]
            have hq1 : runConcat (q, 1) = q := by
              simp [runConcat]
            rw [hq2, hq1]
            simp only [List.append_assoc]
            rw [hsplit]
          · rw [if_neg hn1]
            obtain ⟨runs, hrun, hconcat⟩ := ih (r.drop (bestLen * n))
              ((r.take bestLen, n) :: (q, 1) :: accRest) hdroplt
            refine ⟨runs, hrun, ?_⟩
            rw [hconcat, runsConcat_reverse_cons, runsConcat_reverse_cons]
            rw [show runConcat (r.take bestLen, n)
                  = (List.replicate n (r.take bestLen)).flatten from rfl]
            rw [List.append_assoc, hsplit]
        | 0 =>
          simp only [compressAux, hre, Bool.false_eq_true, if_false,
            if_neg hb0, if_neg hguard]
          set bestLen := argmaxQ (scoreList maxPer r) with hbl
          set n := _getNumPeriods r bestLen with hn
          have hsplit : (List.replicate n (r.take bestLen)).flatten
              ++ r.drop (bestLen * n) = r := getNumPeriods_cover r bestLen
          have hbpos : 1 ≤ bestLen := Nat.one_le_iff_ne_zero.mpr hb0
          have hnpos : 1 ≤ n := Nat.one_le_iff_ne_zero.mpr hn0
          have hdroplt : (r.drop (bestLen * n)).length < fuel := by
            rw [List.length_drop]
            have h1 : 1 ≤ bestLen * n := Nat.mul_le_mul hbpos hnpos
            have h2 : 0 < r.length := List.length_pos.mpr hrne
            omega
          obtain ⟨runs, hrun, hconcat⟩ := ih (r.drop (bestLen * n))
            ((r.take bestLen, n) :: (q, 0) :: accRest) hdroplt
          refine ⟨runs, hrun, ?_⟩
          rw [hconcat, runsConcat_reverse_cons, runsConcat_reverse_cons]
          rw [show runConcat (r.take bestLen, n)
                = (List.replicate n (r.take bestLen)).flatten from rfl]
          rw [List.append_assoc, hsplit]
        | k + 2 =>
          simp only [compressAux, hre, Bool.false_eq_true, if_false,
            if_neg hb0, if_neg hguard]
          set bestLen := argmaxQ (scoreList maxPer r) with hbl
          set n := _getNumPeriods r bestLen with hn
          have hsplit : (List.replicate n (r.take bestLen)).flatten
              ++ r.drop (bestLen * n) = r := getNumPeriods_cover r bestLen
          have hbpos : 1 ≤ bestLen := Nat.one_le_iff_ne_zero.mpr hb0
          have hnpos : 1 ≤ n := Nat.one_le_iff_ne_zero.mpr hn0
          have hdroplt : (r.drop (bestLen * n)).length < fuel := by
            rw [List.length_drop]
            have h1 : 1 ≤ bestLen * n := Nat.mul_le_mul hbpos hnpos
            have h2 : 0 < r.length := List.length_pos.mpr hrne
            omega
          obtain ⟨runs, hrun, hconcat⟩ := ih (r.drop (bestLen * n))
            ((r.take bestLen, n) :: (q, k + 2) :: accRest) hdroplt
          refine ⟨runs, hrun, ?_⟩
          rw [hconcat, runsConcat_reverse_cons, runsConcat_reverse_cons]
          rw [show runConcat (r.take bestLen, n)
                = (List.replicate n (r.take bestLen)).flatten from rfl]
          rw [List.append_assoc, hsplit]

theorem expand_runs (runs : List (List String × Nat)) :
    (expandLoop (runs.map (fun pr => GSElem.run pr.1 pr.2))).map List.flatten
      = some ((runsConcat runs).map GSElem.lbl) := by
  induction runs with
  | nil => rfl
  | cons pr rest ih =>
    simp only [List.map_cons, expandLoop, expandElem]
    cases hrest : expandLoop (rest.map (fun pr => GSElem.run pr.1 pr.2)) with
    | none => rw [hrest] at ih; exact absurd ih (by simp)
    | some parts =>
      rw [hrest] at ih
      simp only [Option.map_some'] at ih
      have hparts : parts.flatten = (runsConcat rest).map GSElem.lbl :=
        Option.some_inj.mp ih
      simp only [Option.map_some', Option.some_inj]
      simp only [List.flatten_cons]
      rw [hparts]
      simp [runsConcat, runConcat]

/-- Counterexample to claim C4 as stated: the one-label gate string
`("CCC",)` is shorter than the default `minLenToCompress = 20`, so
`compress_gate_label_tuple` returns it unchanged — but it begins with the
compression marker, so `expand_gate_label_tuple` mistakes it for a
compressed tuple and returns the empty tuple: the round trip fails. -/
theorem compress_expand_roundtrip_cex :
    ¬ ((compress_gate_label_tuple ["CCC"] 20 20).bind expand_gate_label_tuple
        = some (["CCC"].map GSElem.lbl)) := by
  decide

/-- Claim C4 (amended): `expand(compress(s)) = tuple(s)` for every gate
string `s` and parameter choice, except the degenerate inputs the code
mishandles: a string returned raw (shorter than `minLenToCompress`) must
not begin with the marker label `"CCC"`, and a string long enough to be
compressed needs `maxPeriodToLookFor ≥ 1` (with `maxPeriodToLookFor = 0`
the loop's `assert(n > 0 and bestPeriodLen > 0)` fails). -/
theorem compress_expand_roundtrip (s : List String) (minLen maxPer : Nat)
    (h : (s.length < minLen ∧ s.head? ≠ some "CCC")
       ∨ (minLen ≤ s.length ∧ 1 ≤ maxPer)) :
    (compress_gate_label_tuple s minLen maxPer).bind expand_gate_label_tuple
      = some (s.map GSElem.lbl) := by
  rcases h with ⟨hlt, hhead⟩ | ⟨hge, hmax⟩
  · rw [compress_gate_label_tuple, if_pos hlt]
    cases s with
    | nil => rfl
    | cons a rest =>
      have ha : a ≠ "CCC" := by
        intro hc
        exact hhead (by rw [hc]; rfl)
      show expand_gate_label_tuple (GSElem.lbl a :: rest.map GSElem.lbl) = _
      simp only [expand_gate_label_tuple]
      rw [if_neg (by simp [ha])]
      rfl
  · rw [compress_gate_label_tuple, if_neg (not_lt.mpr hge)]
    obtain ⟨runs, hrun, hconcat⟩ :=
      compressAux_spec maxPer hmax (s.length + 1) s [] (Nat.lt_succ_self _)
    rw [hrun]
    simp only [Option.map_some', Option.some_bind]
    simp only [expand_gate_label_tuple, if_true]
    rw [expand_runs runs]
    have hs : runsConcat runs = s := by
      simpa [runsConcat] using hconcat
    rw [hs]

/-- Witness for the amended C4: the compressed branch at the concrete input
`("a","b","a","b")` with `minLenToCompress = 1` and
`maxPeriodToLookFor = 2`. -/
theorem compress_expand_roundtrip_witness :
    (1 : Nat) ≤ 4 ∧ (1 : Nat) ≤ 2
    ∧ (compress_gate_label_tuple ["a", "b", "a", "b"] 1 2).bind
        expand_gate_label_tuple
      = some (["a", "b", "a", "b"].map GSElem.lbl) :=
  ⟨by decide, by decide,
   compress_expand_roundtrip ["a", "b", "a", "b"] 1 2
     (Or.inr ⟨by decide, by decide⟩)⟩

/-!
## Fiducial pair search (`fiducialpairreduction.py` lines 21-166)

The derivative provider (`get_derivs`, built on the external gate-set
simulator — out of scope per the spec) has already produced the two stacked
full test matrices `fullTestMx0`, `fullTestMx1`, whose rows follow the
layout `iGerm*germFctr + iSpamLabel*spamLabelFctr + iFiducialPair`.  The
numpy RNG is external state: `randSample k` embeds the draw
`rand.randint(0, nTotalPairCombos, size=nRandom)` made for subset size `k`
(the `RandomState(seed)` is re-seeded each iteration, but its bound depends
on `k`).  Matrices are lists of rows; `numpy.take` becomes `takeRows`.
-/

/-- `_nCr(n, r)` (lines 16-19): `n!/r!/(n-r)!` with Python 2 floor division
(exact, since the divisions are exact for factorials). -/
def _nCr (n r : Nat) : Nat :=
  n.factorial / r.factorial / (n - r).factorial

/-- `itertools.combinations(l, k)`: all `k`-element subsequences in
lexicographic order of positions. -/
def combinations : Nat → List Nat → List (List Nat)
  | 0, _ => [[]]
  | _+1, [] => []
  | k+1, x :: xs =>
    (combinations k xs).map (fun c => x :: c) ++ combinations (k+1) xs

/-- Python `sorted` (ascending). -/
def sortAsc (l : List Nat) : List Nat :=
  List.insertionSort (fun a b => a ≤ b) l

/-- The `filterAll` generator (lines 128-134): walk the iterator with a
position counter, yield the elements whose position equals the next entry
of `randIndices`, and — immediately after a yield — stop once `randIndices`
is exhausted (`if nxt == len(randIndices): break`).  Because the check
`i == randIndices[nxt]` is evaluated before anything is yielded, a run that
reaches a nonempty iterator with `randIndices` empty (reachable with
`nRandom = 0`) raises `IndexError` on `randIndices[0]`; that raise is
embedded as `none`.  The break after a yield means the empty-`randIndices`
pattern below is only ever reached from the initial call. -/
def filterAllAux : List Nat → Nat → List (List Nat) → Option (List (List Nat))
  | _, _, [] => some []
  | [], _, _ :: _ => none
  | r :: rs, i, v :: rest =>
    if i = r then
      if rs.isEmpty then some [v]
      else (filterAllAux rs (i + 1) rest).map (fun tl => v :: tl)
    else filterAllAux (r :: rs) (i + 1) rest

/-- `filterAll(randIndices, iterator)` starting at position 0; `none` is
the `IndexError` raised on an empty `randIndices` against a nonempty
iterator. -/
def filterAll (randIndices : List Nat) (combos : List (List Nat)) :
    Option (List (List Nat)) :=
  filterAllAux randIndices 0 combos

/-- The two values of the `searchMode` argument. -/
inductive SearchMode where
  | sequential
  | random
deriving DecidableEq

/-- `gateStringIndicesForPair[i]` (lines 92-98): the full-matrix row indices
contributed by fiducial pair `i` — germs outer, spam labels inner, with
`germFctr = nSpamLabels*nRhoStrs*nEStrs` and
`spamLabelFctr = nRhoStrs*nEStrs`. -/
def gateStringIndicesForPair (nGerms nSpamLabels nRhoStrs nEStrs i : Nat) :
    List Nat :=
  ((List.range nGerms).map (fun iGerm =>
    (List.range nSpamLabels).map (fun iSpamLabel =>
      iGerm * (nSpamLabels * nRhoStrs * nEStrs)
        + iSpamLabel * (nRhoStrs * nEStrs) + i))).flatten

/-- `numpy.take(M, indices, axis=0)`: the selected rows, in order.  (The
indices built by the search are in range for well-formed dimensions, where
numpy would raise on an out-of-range index this total model reads an empty
row.) -/
def takeRows (M : List (List ℚ)) (idxs : List Nat) : List (List ℚ) :=
  idxs.map (fun i => M.getD i [])

/-- The concatenated row indices of a candidate pair subset (lines
140-142). -/
def pairRowIndices (nGerms nSpamLabels nRhoStrs nEStrs : Nat)
    (cand : List Nat) : List Nat :=
  (cand.map (gateStringIndicesForPair nGerms nSpamLabels nRhoStrs nEStrs)).flatten

/-- Conversion of a flat pair index to `(iRhoStr, iEStr)` (lines 156-160):
`iRhoStr = i // nEStrs`, `iEStr = i - iRhoStr*nEStrs`. -/
def toPair (nEStrs i : Nat) : Nat × Nat :=
  (i / nEStrs, i - (i / nEStrs) * nEStrs)

/-- `listOfAllPairs` (line 165): every `(iRhoStr, iEStr)` combination. -/
def listOfAllPairs (nRhoStrs nEStrs : Nat) : List (Nat × Nat) :=
  ((List.range nRhoStrs).map (fun iRhoStr =>
    (List.range nEStrs).map (fun iEStr => (iRhoStr, iEStr)))).flatten

section FPRSearch

variable (svd : List (List ℚ) → Option (List ℚ))
variable (fullTestMx0 fullTestMx1 : List (List ℚ))
variable (nGerms nSpamLabels nRhoStrs nEStrs : Nat)
variable (L0 L1 tol : ℚ)
variable (mode : SearchMode) (nRandom : Nat) (randSample : Nat → List Nat)

/-- The amplified count of one candidate subset (lines 139-145): slice both
full matrices by the candidate's row indices and run
`get_number_amplified`. -/
def candidateAmplified (cand : List Nat) : Nat :=
  get_number_amplified svd
    (takeRows fullTestMx0 (pairRowIndices nGerms nSpamLabels nRhoStrs nEStrs cand))
    (takeRows fullTestMx1 (pairRowIndices nGerms nSpamLabels nRhoStrs nEStrs cand))
    L0 L1 tol

/-- The candidate enumeration for subset size `k` (lines 117-136):
sequential mode enumerates all lexicographic combinations; random mode
filters them by the deduplicated, sorted sample positions (or enumerates
exhaustively when the sample covers every combination).  `none` is the
`IndexError` `filterAll` raises when the sample positions are empty against
a nonempty combination iterator; a lazy generator in the source, it
surfaces at the first pull of the size-`k` loop, before any candidate of
that size is tested. -/
def candidatesFor (nPossiblePairs k : Nat) : Option (List (List Nat)) :=
  match mode with
  | .sequential => some (combinations k (List.range nPossiblePairs))
  | .random =>
    let nTotalPairCombos := _nCr nPossiblePairs k
    let randIndices :=
      if nRandom < nTotalPairCombos then
        remove_duplicates (sortAsc (randSample k))
      else List.range nTotalPairCombos
    filterAll randIndices (combinations k (List.range nPossiblePairs))

/-- The `for nNeededPairs in range(1, nPossiblePairs)` loop (lines 110-166):
for each size, return the pair form of the first candidate whose amplified
count equals `maxAmplified`; a raised `IndexError` from the random-mode
enumeration aborts the whole call; when every size is exhausted, return the
full pair list. -/
def fprSearchLoop (maxAmplified : Nat) : List Nat → Except String (List (Nat × Nat))
  | [] => .ok (listOfAllPairs nRhoStrs nEStrs)
  | k :: ks =>
    match candidatesFor mode nRandom randSample (nRhoStrs * nEStrs) k with
    | none => .error "IndexError"
    | some cands =>
      match cands.find?
          (fun cand =>
            candidateAmplified svd fullTestMx0 fullTestMx1 nGerms nSpamLabels
              nRhoStrs nEStrs L0 L1 tol cand == maxAmplified) with
      | some cand => .ok (cand.map (toPair nEStrs))
      | none =>
        fprSearchLoop maxAmplified ks

/-- `find_sufficient_fiducial_pairs` (lines 21-166) from the full-matrix
stage onward.  With an explicit `testPairList` the code prints a diagnostic
amplified count and returns Python `None` (embedded `.ok none`, the
diagnostic being output only); otherwise `maxAmplified` is the amplified
count of the full matrices and the subset search runs over sizes `1, …,
nPossiblePairs-1`, either returning a pair list (`.ok (some _)`) or
propagating the `IndexError` raised by an empty random sample
(`.error`). -/
def find_sufficient_fiducial_pairs
    (testPairList : Option (List (Nat × Nat))) :
    Except String (Option (List (Nat × Nat))) :=
  match testPairList with
  | some _ => .ok none
  | none =>
    let nPossiblePairs := nRhoStrs * nEStrs
    let maxAmplified := get_number_amplified svd fullTestMx0 fullTestMx1 L0 L1 tol
    (fprSearchLoop svd fullTestMx0 fullTestMx1 nGerms nSpamLabels nRhoStrs
      nEStrs L0 L1 tol mode nRandom randSample maxAmplified
      (List.range' 1 (nPossiblePairs - 1))).map some

/-- Claim C1's wording of the search result: enumerate candidate subsets
over sizes `k = 1, 2, …, totalPairs−1` in increasing order (each size in
its enumeration order — a size whose enumeration raised contributes
nothing, covered by the amended theorem's hypothesis that none does), take
the first whose amplified count equals `maxAmplified` — the amplified count
of the full fiducial-pair set — and fall back to every
`(prepIndex, effectIndex)` pair when none qualifies. -/
def firstQualifyingSubsetSpec : List (Nat × Nat) :=
  let nPossiblePairs := nRhoStrs * nEStrs
  let maxAmplified := get_number_amplified svd fullTestMx0 fullTestMx1 L0 L1 tol
  match (((List.range' 1 (nPossiblePairs - 1)).map (fun k =>
      (candidatesFor mode nRandom randSample nPossiblePairs k).getD [])).flatten).find?
      (fun cand =>
        candidateAmplified svd fullTestMx0 fullTestMx1 nGerms nSpamLabels
          nRhoStrs nEStrs L0 L1 tol cand == maxAmplified) with
  | some cand => cand.map (toPair nEStrs)
  | none => listOfAllPairs nRhoStrs nEStrs

theorem fprSearchLoop_eq_find (maxAmplified : Nat) (ks : List Nat)
    (hok : ∀ k ∈ ks,
      candidatesFor mode nRandom randSample (nRhoStrs * nEStrs) k ≠ none) :
    fprSearchLoop svd fullTestMx0 fullTestMx1 nGerms nSpamLabels nRhoStrs
      nEStrs L0 L1 tol mode nRandom randSample maxAmplified ks
      = .ok (match ((ks.map (fun k =>
            (candidatesFor mode nRandom randSample (nRhoStrs * nEStrs) k).getD
              [])).flatten).find?
            (fun cand =>
              candidateAmplified svd fullTestMx0 fullTestMx1 nGerms nSpamLabels
                nRhoStrs nEStrs L0 L1 tol cand == maxAmplified) with
        | some cand => cand.map (toPair nEStrs)
        | none => listOfAllPairs nRhoStrs nEStrs) := by
  induction ks with
  | nil => rfl
  | cons k ks ih =>
    have hk := hok k (List.mem_cons_self k ks)
    obtain ⟨cands, hc⟩ := Option.ne_none_iff_exists'.mp hk
    simp only [fprSearchLoop, hc, List.map_cons, List.flatten_cons,
      List.find?_append, Option.getD_some]
    cases h : cands.find?
        (fun cand =>
          candidateAmplified svd fullTestMx0 fullTestMx1 nGerms nSpamLabels
            nRhoStrs nEStrs L0 L1 tol cand == maxAmplified) with
    | some cand => simp [h]
    | none =>
      simp only [h, Option.none_or]
      exact ih (fun k2 hk2 => hok k2 (List.mem_cons_of_mem _ hk2))

/-- Counterexample to claim C1 as stated: with `searchMode = random` and
`nRandom = 0` (two fiducial pairs: `nRhoStrs = 1`, `nEStrs = 2`, so size
`k = 1` is searched), the drawn sample — hence `randIndices` — is empty and
the first pull of `filterAll` raises `IndexError` on `randIndices[0]`
before any candidate is tested, so the run returns nothing at all: neither
the first qualifying subset nor the full-pair fallback the claim
prescribes. -/
theorem find_sufficient_fiducial_pairs_random_empty_cex :
    find_sufficient_fiducial_pairs (fun _ => none) [] [] 1 1 1 2 256 2048
        (3/4) SearchMode.random 0 (fun _ => []) none
      = .error "IndexError"
    ∧ ¬ (find_sufficient_fiducial_pairs (fun _ => none) [] [] 1 1 1 2 256 2048
          (3/4) SearchMode.random 0 (fun _ => []) none
        = .ok (some (firstQualifyingSubsetSpec (fun _ => none) [] [] 1 1 1 2
            256 2048 (3/4) SearchMode.random 0 (fun _ => [])))) :=
  ⟨rfl, fun h => Except.noConfusion h⟩

/-- Claim C1 (amended): without an explicit `testPairList`, and provided
every visited size's candidate enumeration is produced without error
(always true in sequential mode; in random mode whenever each size's
deduplicated sample-position list is nonempty — e.g. whenever
`nRandom ≥ 1` — or the sample covers all combinations; with an empty
sample the run instead raises `IndexError`), the search returns exactly the
first candidate — over sizes `k = 1, …, totalPairs−1` in increasing order,
within each size in enumeration order — whose amplified count equals
`maxAmplified` (the amplified count of the full fiducial-pair set), and the
list of every `(prepIndex, effectIndex)` pair when no candidate of any size
qualifies. -/
theorem find_sufficient_fiducial_pairs_first_found
    (hok : ∀ k ∈ List.range' 1 (nRhoStrs * nEStrs - 1),
      candidatesFor mode nRandom randSample (nRhoStrs * nEStrs) k ≠ none) :
    find_sufficient_fiducial_pairs svd fullTestMx0 fullTestMx1 nGerms
      nSpamLabels nRhoStrs nEStrs L0 L1 tol mode nRandom randSample none
      = .ok (some (firstQualifyingSubsetSpec svd fullTestMx0 fullTestMx1 nGerms
          nSpamLabels nRhoStrs nEStrs L0 L1 tol mode nRandom randSample)) := by
  show (fprSearchLoop svd fullTestMx0 fullTestMx1 nGerms nSpamLabels nRhoStrs
      nEStrs L0 L1 tol mode nRandom randSample
      (get_number_amplified svd fullTestMx0 fullTestMx1 L0 L1 tol)
      (List.range' 1 (nRhoStrs * nEStrs - 1))).map some = _
  rw [fprSearchLoop_eq_find svd fullTestMx0 fullTestMx1 nGerms nSpamLabels
    nRhoStrs nEStrs L0 L1 tol mode nRandom randSample
    (get_number_amplified svd fullTestMx0 fullTestMx1 L0 L1 tol)
    (List.range' 1 (nRhoStrs * nEStrs - 1)) hok]
  rfl

/-- Witness for the amended C1 at a concrete input: sequential mode over
two fiducial pairs with an all-failing SVD oracle — every candidate (and
the full set) has amplified count 0, so the first size-1 candidate `[0]`
qualifies and the search returns `[(0, 0)]`. -/
theorem find_sufficient_fiducial_pairs_first_found_witness :
    find_sufficient_fiducial_pairs (fun _ => none) [] [] 1 1 1 2 256 2048
        (3/4) SearchMode.sequential 100 (fun _ => []) none
      = .ok (some [(0, 0)]) :=
  (find_sufficient_fiducial_pairs_first_found (fun _ => none) [] [] 1 1 1 2
      256 2048 (3/4) SearchMode.sequential 100 (fun _ => [])
      (by decide)).trans rfl

end FPRSearch

end PyGSTi
